import Mathlib

/-!
Verification of the UAStools `plotshpcreate` pipeline
(`python-package/uastools/plotshpcreate.py`).

The development shallowly embeds the pipeline:
* the AB-line quadrant trigonometry (lines 147-164 of the source),
* the rectangle/buffer corner construction (lines 272-312),
* the stagger parity test and staggered rotation origin (lines 286-295,
  323-349),
* the rotation applied to every corner (lines 352-366),
* the discrete record pipeline: validation, sorting, grid normalization,
  combined/individual/subset row grouping, serpentine ordering and the
  final label/polygon hand-off (lines 116-266, 384-386).

Real-valued geometry is embedded over `ℝ` (the source's floating point
trigonometry, read at real-number precision); the record pipeline is
embedded with computable functions over `Int`-indexed records so that
concrete runs evaluate by `decide`.
-/

namespace UAStools

open Real

/-! ### AB-line quadrant trigonometry (source lines 147-164) -/

/-- `DirectionTheta = arctan(|ΔNorthing| / |ΔEasting|)`, source line 150. -/
noncomputable def DirectionTheta (dE dN : ℝ) : ℝ := arctan (|dN| / |dE|)

/-- Rotation angle `Theta`, selected by the quadrant `if`-chain of source
lines 153-164. -/
noncomputable def Theta (dE dN : ℝ) : ℝ :=
  if 0 < dN ∧ 0 < dE then 3 * π / 2 + DirectionTheta dE dN
  else if 0 < dN ∧ dE < 0 then π / 2 - DirectionTheta dE dN
  else if dN < 0 ∧ dE < 0 then π / 2 + DirectionTheta dE dN
  else 3 * π / 2 - DirectionTheta dE dN

/-- Label rotation angle `srt_theta` (degrees), same `if`-chain. -/
noncomputable def srtTheta (dE dN : ℝ) : ℝ :=
  if 0 < dN ∧ 0 < dE then 90 - DirectionTheta dE dN * (180 / π)
  else if 0 < dN ∧ dE < 0 then 270 + DirectionTheta dE dN * (180 / π)
  else if dN < 0 ∧ dE < 0 then DirectionTheta dE dN * (180 / π)
  else 270 + DirectionTheta dE dN * (180 / π)

/-- The corner rotation of source lines 357-360: a local `(Y, X)` point is
mapped to `(Y·cos Θ + X·sin Θ + originN, X·cos Θ − Y·sin Θ + originE)`. -/
noncomputable def rotPt (θ oN oE : ℝ) (p : ℝ × ℝ) : ℝ × ℝ :=
  (p.1 * cos θ + p.2 * sin θ + oN, p.2 * cos θ - p.1 * sin θ + oE)

/-! ### Helper bounds on `arctan` -/

theorem arctan_le_self_of_nonneg {x : ℝ} (hx : 0 ≤ x) : arctan x ≤ x := by
  rcases eq_or_lt_of_le hx with h | h
  · simp [← h]
  rcases lt_or_le x (π / 2) with h2 | h2
  · have h3 : x < tan x := Real.lt_tan h h2
    have h4 : arctan x ≤ arctan (tan x) := Real.arctan_strictMono.monotone h3.le
    rwa [Real.arctan_tan (by linarith [Real.pi_pos]) h2] at h4
  · exact le_trans (Real.arctan_lt_pi_div_two x).le h2

theorem arctan_nonneg_of_nonneg {x : ℝ} (hx : 0 ≤ x) : 0 ≤ arctan x := by
  have h : arctan 0 ≤ arctan x := Real.arctan_strictMono.monotone hx
  simpa using h

theorem div_sqrt_le_arctan {x : ℝ} (hx : 0 ≤ x) : x / √(1 + x ^ 2) ≤ arctan x := by
  rw [← Real.sin_arctan]
  exact Real.sin_le (arctan_nonneg_of_nonneg hx)

/-- The concrete direction angle of the end-to-end example splits as
`π/4 + arctan(6199/195013)`. -/
theorem arctan_example_split :
    arctan ((100606 : ℝ) / 94407) = π / 4 + arctan (6199 / 195013) := by
  have h : (1 : ℝ) * (6199 / 195013) < 1 := by norm_num
  have h2 := Real.arctan_add (x := 1) (y := (6199 : ℝ) / 195013) h
  rw [Real.arctan_one] at h2
  rw [show ((100606 : ℝ) / 94407) =
      ((1 : ℝ) + 6199 / 195013) / (1 - 1 * (6199 / 195013)) by norm_num]
  exact h2.symm

theorem arctan_example_bounds :
    0.8162 < arctan ((100606 : ℝ) / 94407) ∧
      arctan ((100606 : ℝ) / 94407) < 0.8176 := by
  have hu : (0 : ℝ) ≤ 6199 / 195013 := by norm_num
  have hπl : (3.141592 : ℝ) < π := Real.pi_gt_d6
  have hπu : π < 3.141593 := Real.pi_lt_d6
  rw [arctan_example_split]
  constructor
  · have hs : √(1 + ((6199 : ℝ) / 195013) ^ 2) ≤ 1.001 := by
      rw [Real.sqrt_le_left (by norm_num)]
      norm_num
    have hs0 : (0 : ℝ) < √(1 + ((6199 : ℝ) / 195013) ^ 2) :=
      Real.sqrt_pos.mpr (by positivity)
    have h1 : ((6199 : ℝ) / 195013) / 1.001 ≤
        ((6199 : ℝ) / 195013) / √(1 + ((6199 : ℝ) / 195013) ^ 2) :=
      div_le_div_of_nonneg_left hu hs0 hs
    have h2 := div_sqrt_le_arctan hu
    have h3 : ((6199 : ℝ) / 195013) / 1.001 ≤ arctan ((6199 : ℝ) / 195013) :=
      le_trans h1 h2
    have h4 : (0.0317 : ℝ) < (6199 : ℝ) / 195013 / 1.001 := by norm_num
    linarith
  · have h1 : arctan ((6199 : ℝ) / 195013) ≤ 6199 / 195013 :=
      arctan_le_self_of_nonneg hu
    have h2 : ((6199 : ℝ) / 195013) < 0.0318 := by norm_num
    linarith

/-- C1: for nonzero `ΔEasting` and `ΔNorthing`, `DirectionTheta` lies in
`[0, π/2)` and the rotation angle `Theta` and label angle `srtTheta` are
selected by quadrant exactly as the table states: `(+,+)` gives
`3π/2 + DirectionTheta` and `90 − deg(DirectionTheta)`; `(+,−)` gives
`π/2 − DirectionTheta` and `270 + deg(DirectionTheta)`; `(−,−)` gives
`π/2 + DirectionTheta` and `deg(DirectionTheta)`; `(−,+)` gives
`3π/2 − DirectionTheta` and `270 + deg(DirectionTheta)`. -/
theorem quadrant_selection_spec (Ax Ay Bx By : ℝ)
    (hE : Bx - Ax ≠ 0) (hN : By - Ay ≠ 0) :
    (0 ≤ DirectionTheta (Bx - Ax) (By - Ay) ∧
      DirectionTheta (Bx - Ax) (By - Ay) < π / 2) ∧
    (0 < By - Ay → 0 < Bx - Ax →
      Theta (Bx - Ax) (By - Ay) = 3 * π / 2 + DirectionTheta (Bx - Ax) (By - Ay) ∧
      srtTheta (Bx - Ax) (By - Ay) =
        90 - DirectionTheta (Bx - Ax) (By - Ay) * (180 / π)) ∧
    (0 < By - Ay → Bx - Ax < 0 →
      Theta (Bx - Ax) (By - Ay) = π / 2 - DirectionTheta (Bx - Ax) (By - Ay) ∧
      srtTheta (Bx - Ax) (By - Ay) =
        270 + DirectionTheta (Bx - Ax) (By - Ay) * (180 / π)) ∧
    (By - Ay < 0 → Bx - Ax < 0 →
      Theta (Bx - Ax) (By - Ay) = π / 2 + DirectionTheta (Bx - Ax) (By - Ay) ∧
      srtTheta (Bx - Ax) (By - Ay) =
        DirectionTheta (Bx - Ax) (By - Ay) * (180 / π)) ∧
    (By - Ay < 0 → 0 < Bx - Ax →
      Theta (Bx - Ax) (By - Ay) = 3 * π / 2 - DirectionTheta (Bx - Ax) (By - Ay) ∧
      srtTheta (Bx - Ax) (By - Ay) =
        270 + DirectionTheta (Bx - Ax) (By - Ay) * (180 / π)) := by
  refine ⟨⟨?_, ?_⟩, ?_, ?_, ?_, ?_⟩
  · exact arctan_nonneg_of_nonneg (div_nonneg (abs_nonneg _) (abs_nonneg _))
  · exact Real.arctan_lt_pi_div_two _
  · intro h1 h2
    constructor
    · simp only [Theta]; rw [if_pos ⟨h1, h2⟩]
    · simp only [srtTheta]; rw [if_pos ⟨h1, h2⟩]
  · intro h1 h2
    have hc1 : ¬(0 < By - Ay ∧ 0 < Bx - Ax) := by
      rintro ⟨-, h⟩; exact absurd h (not_lt.mpr h2.le)
    constructor
    · simp only [Theta]; rw [if_neg hc1, if_pos ⟨h1, h2⟩]
    · simp only [srtTheta]; rw [if_neg hc1, if_pos ⟨h1, h2⟩]
  · intro h1 h2
    have hc1 : ¬(0 < By - Ay ∧ 0 < Bx - Ax) := by
      rintro ⟨h, -⟩; exact absurd h (not_lt.mpr h1.le)
    have hc2 : ¬(0 < By - Ay ∧ Bx - Ax < 0) := by
      rintro ⟨h, -⟩; exact absurd h (not_lt.mpr h1.le)
    constructor
    · simp only [Theta]; rw [if_neg hc1, if_neg hc2, if_pos ⟨h1, h2⟩]
    · simp only [srtTheta]; rw [if_neg hc1, if_neg hc2, if_pos ⟨h1, h2⟩]
  · intro h1 h2
    have hc1 : ¬(0 < By - Ay ∧ 0 < Bx - Ax) := by
      rintro ⟨h, -⟩; exact absurd h (not_lt.mpr h1.le)
    have hc2 : ¬(0 < By - Ay ∧ Bx - Ax < 0) := by
      rintro ⟨h, -⟩; exact absurd h (not_lt.mpr h1.le)
    have hc3 : ¬(By - Ay < 0 ∧ Bx - Ax < 0) := by
      rintro ⟨-, h⟩; exact absurd h (not_lt.mpr h2.le)
    constructor
    · simp only [Theta]; rw [if_neg hc1, if_neg hc2, if_neg hc3]
    · simp only [srtTheta]; rw [if_neg hc1, if_neg hc2, if_neg hc3]

/-- Witness for C1 at `A = (0,0)`, `B = (1,1)`. -/
theorem quadrant_selection_spec_witness :
    ((1 : ℝ) - 0 ≠ 0) ∧ ((1 : ℝ) - 0 ≠ 0) ∧
      (0 ≤ DirectionTheta ((1 : ℝ) - 0) ((1 : ℝ) - 0) ∧
        DirectionTheta ((1 : ℝ) - 0) ((1 : ℝ) - 0) < π / 2) ∧
      Theta ((1 : ℝ) - 0) ((1 : ℝ) - 0) =
        3 * π / 2 + DirectionTheta ((1 : ℝ) - 0) ((1 : ℝ) - 0) := by
  have h := quadrant_selection_spec 0 0 1 1 (by norm_num) (by norm_num)
  exact ⟨by norm_num, by norm_num,
    h.1, (h.2.1 (by norm_num) (by norm_num)).1⟩

/-! ### Rectangle corners, buffering, stagger (source lines 272-312, 286-295, 323-349) -/

/-- Bottom-left corner of the local rectangle at grid position
`(range r, row c)`, source lines 274-275. Points are `(Y, X)` pairs:
first component range axis, second row axis. -/
noncomputable def cornerBL (r c : ℤ) (RS WS : ℝ) : ℝ × ℝ :=
  (((r : ℝ) - 1) * RS, ((c : ℝ) - 1) * WS)

/-- Bottom-right corner, source lines 277-278. -/
noncomputable def cornerBR (r c : ℤ) (RS WS : ℝ) : ℝ × ℝ :=
  (((r : ℝ) - 1) * RS, (c : ℝ) * WS)

/-- Top-right corner, source lines 280-281. -/
noncomputable def cornerTR (r c : ℤ) (RS WS : ℝ) : ℝ × ℝ :=
  ((r : ℝ) * RS, (c : ℝ) * WS)

/-- Top-left corner, source lines 283-284. -/
noncomputable def cornerTL (r c : ℤ) (RS WS : ℝ) : ℝ × ℝ :=
  ((r : ℝ) * RS, ((c : ℝ) - 1) * WS)

/-- Buffered bottom-left corner, source lines 302-303. -/
noncomputable def bufBL (p : ℝ × ℝ) (RB WB : ℝ) : ℝ × ℝ := (p.1 + RB, p.2 + WB)

/-- Buffered bottom-right corner, source lines 305-306. -/
noncomputable def bufBR (p : ℝ × ℝ) (RB WB : ℝ) : ℝ × ℝ := (p.1 + RB, p.2 - WB)

/-- Buffered top-right corner, source lines 308-309. -/
noncomputable def bufTR (p : ℝ × ℝ) (RB WB : ℝ) : ℝ × ℝ := (p.1 - RB, p.2 - WB)

/-- Buffered top-left corner, source lines 311-312. -/
noncomputable def bufTL (p : ℝ × ℝ) (RB WB : ℝ) : ℝ × ℝ := (p.1 - RB, p.2 + WB)

/-- `⌈a / n⌉` on integers (`np.ceil` of an exact division, for `0 < n`). -/
def ceilDiv (a n : ℤ) : ℤ := -(-a / n)

/-- The stagger parity test of source lines 290 and 345:
`ceil((floor(o - s + 1) + p) / p) mod 2` (the inner `floor` is the
identity on integer data). -/
def staggerParity (o s p : ℤ) : ℤ := ceilDiv (o - s + 1 + p) p % 2

/-- The stagger-shifted rotation origin `(E, N)` of source lines 324-336,
selected by the same quadrant conditions as `Theta`. -/
noncomputable def staggerOrigin (dE dN AE AN d θ : ℝ) : ℝ × ℝ :=
  if 0 < dN ∧ 0 < dE then (AE - d * sin θ, AN + d * cos θ)
  else if 0 < dN ∧ dE < 0 then (AE - d * cos θ, AN + d * sin θ)
  else if dN < 0 ∧ dE < 0 then (AE - d * cos θ, AN + d * sin θ)
  else (AE + d * cos θ, AN - d * sin θ)

/-- The real-world image of a local corner `p` of a plot with original row
`o`: rotation around `A`, or around the stagger-shifted origin when a
stagger spec is given and the parity test fires (source lines 342-366). -/
noncomputable def exportPt (dE dN AE AN : ℝ) (stag : Option (ℤ × ℤ × ℝ))
    (o : ℤ) (p : ℝ × ℝ) : ℝ × ℝ :=
  match stag with
  | none => rotPt (Theta dE dN) AN AE p
  | some (s, pp, d) =>
    if staggerParity o s pp = 0 then
      rotPt (Theta dE dN) (staggerOrigin dE dN AE AN d (Theta dE dN)).2
        (staggerOrigin dE dN AE AN d (Theta dE dN)).1 p
    else rotPt (Theta dE dN) AN AE p

/-- Coordinate order used by the shapefile writer (source lines 467-472):
a `(Y, X)` pair is emitted as `(X, Y) = (Easting, Northing)`. -/
noncomputable def shpPoint (p : ℝ × ℝ) : ℝ × ℝ := (p.2, p.1)

/-! ### Distances and areas -/

noncomputable def sqDist (p q : ℝ × ℝ) : ℝ := (p.1 - q.1) ^ 2 + (p.2 - q.2) ^ 2

noncomputable def distPts (p q : ℝ × ℝ) : ℝ := √(sqDist p q)

/-- Twice the signed shoelace sum of the quadrilateral `p1 p2 p3 p4`
(vertices as `(Y, X)` pairs). -/
noncomputable def shoelaceTwice (p1 p2 p3 p4 : ℝ × ℝ) : ℝ :=
  p1.2 * p2.1 - p2.2 * p1.1 + (p2.2 * p3.1 - p3.2 * p2.1) +
    (p3.2 * p4.1 - p4.2 * p3.1) + (p4.2 * p1.1 - p1.2 * p4.1)

noncomputable def shoelaceArea (p1 p2 p3 p4 : ℝ × ℝ) : ℝ :=
  |shoelaceTwice p1 p2 p3 p4| / 2

theorem sqDist_rotPt (θ oN oE : ℝ) (p q : ℝ × ℝ) :
    sqDist (rotPt θ oN oE p) (rotPt θ oN oE q) = sqDist p q := by
  simp only [sqDist, rotPt]
  linear_combination ((p.1 - q.1) ^ 2 + (p.2 - q.2) ^ 2) * Real.sin_sq_add_cos_sq θ

theorem distPts_rotPt (θ oN oE : ℝ) (p q : ℝ × ℝ) :
    distPts (rotPt θ oN oE p) (rotPt θ oN oE q) = distPts p q := by
  simp only [distPts, sqDist_rotPt]

theorem shoelaceTwice_rotPt (θ oN oE : ℝ) (p1 p2 p3 p4 : ℝ × ℝ) :
    shoelaceTwice (rotPt θ oN oE p1) (rotPt θ oN oE p2) (rotPt θ oN oE p3)
      (rotPt θ oN oE p4) = shoelaceTwice p1 p2 p3 p4 := by
  simp only [shoelaceTwice, rotPt]
  linear_combination (p1.2 * p2.1 - p2.2 * p1.1 + (p2.2 * p3.1 - p3.2 * p2.1) +
    (p3.2 * p4.1 - p4.2 * p3.1) + (p4.2 * p1.1 - p1.2 * p4.1)) * Real.sin_sq_add_cos_sq θ

/-- C8: every unbuffered rectangle has adjacent-corner distances exactly
`RowSpacing` and `RangeSpacing` and shoelace area `RangeSpacing·RowSpacing`,
and all three quantities are unchanged by the AB-line rotation (which is an
isometry), for every rotation angle and origin. -/
theorem rectangle_metrics_spec (r c : ℤ) (RS WS θ oN oE : ℝ)
    (hRS : 0 ≤ RS) (hWS : 0 ≤ WS) :
    distPts (cornerBL r c RS WS) (cornerBR r c RS WS) = WS ∧
    distPts (cornerBR r c RS WS) (cornerTR r c RS WS) = RS ∧
    distPts (cornerTR r c RS WS) (cornerTL r c RS WS) = WS ∧
    distPts (cornerTL r c RS WS) (cornerBL r c RS WS) = RS ∧
    shoelaceArea (cornerBL r c RS WS) (cornerBR r c RS WS)
      (cornerTR r c RS WS) (cornerTL r c RS WS) = RS * WS ∧
    distPts (rotPt θ oN oE (cornerBL r c RS WS)) (rotPt θ oN oE (cornerBR r c RS WS)) = WS ∧
    distPts (rotPt θ oN oE (cornerBR r c RS WS)) (rotPt θ oN oE (cornerTR r c RS WS)) = RS ∧
    distPts (rotPt θ oN oE (cornerTR r c RS WS)) (rotPt θ oN oE (cornerTL r c RS WS)) = WS ∧
    distPts (rotPt θ oN oE (cornerTL r c RS WS)) (rotPt θ oN oE (cornerBL r c RS WS)) = RS ∧
    shoelaceArea (rotPt θ oN oE (cornerBL r c RS WS)) (rotPt θ oN oE (cornerBR r c RS WS))
      (rotPt θ oN oE (cornerTR r c RS WS)) (rotPt θ oN oE (cornerTL r c RS WS)) = RS * WS ∧
    (∀ p q : ℝ × ℝ, distPts (rotPt θ oN oE p) (rotPt θ oN oE q) = distPts p q) := by
  have hBLBR : distPts (cornerBL r c RS WS) (cornerBR r c RS WS) = WS := by
    simp only [distPts, sqDist, cornerBL, cornerBR]
    rw [show (((r : ℝ) - 1) * RS - ((r : ℝ) - 1) * RS) ^ 2 +
        (((c : ℝ) - 1) * WS - (c : ℝ) * WS) ^ 2 = WS ^ 2 by ring]
    exact Real.sqrt_sq hWS
  have hBRTR : distPts (cornerBR r c RS WS) (cornerTR r c RS WS) = RS := by
    simp only [distPts, sqDist, cornerBR, cornerTR]
    rw [show (((r : ℝ) - 1) * RS - (r : ℝ) * RS) ^ 2 +
        ((c : ℝ) * WS - (c : ℝ) * WS) ^ 2 = RS ^ 2 by ring]
    exact Real.sqrt_sq hRS
  have hTRTL : distPts (cornerTR r c RS WS) (cornerTL r c RS WS) = WS := by
    simp only [distPts, sqDist, cornerTR, cornerTL]
    rw [show ((r : ℝ) * RS - (r : ℝ) * RS) ^ 2 +
        ((c : ℝ) * WS - ((c : ℝ) - 1) * WS) ^ 2 = WS ^ 2 by ring]
    exact Real.sqrt_sq hWS
  have hTLBL : distPts (cornerTL r c RS WS) (cornerBL r c RS WS) = RS := by
    simp only [distPts, sqDist, cornerTL, cornerBL]
    rw [show ((r : ℝ) * RS - ((r : ℝ) - 1) * RS) ^ 2 +
        (((c : ℝ) - 1) * WS - ((c : ℝ) - 1) * WS) ^ 2 = RS ^ 2 by ring]
    exact Real.sqrt_sq hRS
  have hArea : shoelaceArea (cornerBL r c RS WS) (cornerBR r c RS WS)
      (cornerTR r c RS WS) (cornerTL r c RS WS) = RS * WS := by
    simp only [shoelaceArea, shoelaceTwice, cornerBL, cornerBR, cornerTR, cornerTL]
    rw [show ((c : ℝ) - 1) * WS * (((r : ℝ) - 1) * RS) - (c : ℝ) * WS * (((r : ℝ) - 1) * RS) +
        ((c : ℝ) * WS * ((r : ℝ) * RS) - (c : ℝ) * WS * (((r : ℝ) - 1) * RS)) +
        ((c : ℝ) * WS * ((r : ℝ) * RS) - ((c : ℝ) - 1) * WS * ((r : ℝ) * RS)) +
        (((c : ℝ) - 1) * WS * (((r : ℝ) - 1) * RS) - ((c : ℝ) - 1) * WS * ((r : ℝ) * RS)) =
        2 * (RS * WS) by ring]
    rw [abs_of_nonneg (by positivity)]
    ring
  have hAreaRot : shoelaceArea (rotPt θ oN oE (cornerBL r c RS WS))
      (rotPt θ oN oE (cornerBR r c RS WS)) (rotPt θ oN oE (cornerTR r c RS WS))
      (rotPt θ oN oE (cornerTL r c RS WS)) = RS * WS := by
    simp only [shoelaceArea, shoelaceTwice_rotPt]
    simpa only [shoelaceArea] using hArea
  refine ⟨hBLBR, hBRTR, hTRTL, hTLBL, hArea, ?_, ?_, ?_, ?_, hAreaRot,
    fun p q => distPts_rotPt θ oN oE p q⟩
  · rw [distPts_rotPt]; exact hBLBR
  · rw [distPts_rotPt]; exact hBRTR
  · rw [distPts_rotPt]; exact hTRTL
  · rw [distPts_rotPt]; exact hTLBL

/-- Witness for C8 at grid position `(1, 1)`, spacings `25` and `2.5`,
angle `0`, origin `(0, 0)`. -/
theorem rectangle_metrics_spec_witness :
    (0 : ℝ) ≤ 25 ∧ (0 : ℝ) ≤ 2.5 ∧
      distPts (cornerBL 1 1 25 2.5) (cornerBR 1 1 25 2.5) = 2.5 ∧
      shoelaceArea (cornerBL 1 1 25 2.5) (cornerBR 1 1 25 2.5)
        (cornerTR 1 1 25 2.5) (cornerTL 1 1 25 2.5) = 25 * 2.5 := by
  have h := rectangle_metrics_spec 1 1 25 2.5 0 0 0 (by norm_num) (by norm_num)
  exact ⟨by norm_num, by norm_num, h.1, h.2.2.2.2.1⟩

/-! ### The end-to-end example (C3) -/

theorem example_direction_eq :
    DirectionTheta ((746334.224 : ℝ) - 746239.817) ((3382152.870 : ℝ) - 3382052.264) =
      arctan ((100606 : ℝ) / 94407) := by
  have h1 : (746334.224 : ℝ) - 746239.817 = 94.407 := by norm_num
  have h2 : (3382152.870 : ℝ) - 3382052.264 = 100.606 := by norm_num
  rw [h1, h2]
  simp only [DirectionTheta]
  rw [abs_of_pos (by norm_num : (0 : ℝ) < 100.606),
    abs_of_pos (by norm_num : (0 : ℝ) < 94.407)]
  norm_num

/-- C3 counterexample: at the end-to-end input the direction angle is not
within `10⁻³` of the claimed `0.8186` (it is `≈ 0.8172`). -/
theorem endtoend_direction_cex :
    ¬ |DirectionTheta ((746334.224 : ℝ) - 746239.817)
        ((3382152.870 : ℝ) - 3382052.264) - 0.8186| < 1 / 1000 := by
  rw [example_direction_eq]
  intro hlt
  rw [abs_lt] at hlt
  have h := arctan_example_bounds
  linarith [hlt.1, h.2]

/-- C3 (amended): for `A=(746239.817, 3382052.264)`,
`B=(746334.224, 3382152.870)` with no stagger, the deltas are exactly
`94.407` and `100.606` (Quadrant I), `Theta = 3π/2 + DirectionTheta` with
`DirectionTheta ≈ 0.8172` rad (within `10⁻³`; not the claimed `0.8186`),
and the exported bottom-left corner of the first unbuffered plot (range 1,
row 1, local `(0,0)`) equals `A` exactly. -/
theorem endtoend_example_spec :
    ((746334.224 : ℝ) - 746239.817 = 94.407) ∧
    ((3382152.870 : ℝ) - 3382052.264 = 100.606) ∧
    ((0 : ℝ) < (3382152.870 : ℝ) - 3382052.264 ∧
      (0 : ℝ) < (746334.224 : ℝ) - 746239.817) ∧
    Theta ((746334.224 : ℝ) - 746239.817) ((3382152.870 : ℝ) - 3382052.264) =
      3 * π / 2 +
        DirectionTheta ((746334.224 : ℝ) - 746239.817) ((3382152.870 : ℝ) - 3382052.264) ∧
    |DirectionTheta ((746334.224 : ℝ) - 746239.817)
        ((3382152.870 : ℝ) - 3382052.264) - 0.8172| < 1 / 1000 ∧
    ∀ RS WS : ℝ,
      shpPoint (exportPt ((746334.224 : ℝ) - 746239.817)
          ((3382152.870 : ℝ) - 3382052.264) 746239.817 3382052.264 none 1
          (cornerBL 1 1 RS WS)) = (746239.817, 3382052.264) := by
  refine ⟨by norm_num, by norm_num, ⟨by norm_num, by norm_num⟩, ?_, ?_, ?_⟩
  · simp only [Theta]
    rw [if_pos ⟨by norm_num, by norm_num⟩]
  · rw [example_direction_eq]
    have h := arctan_example_bounds
    rw [abs_lt]
    constructor <;> linarith [h.1, h.2]
  · intro RS WS
    simp only [exportPt, shpPoint, rotPt, cornerBL]
    rw [Prod.ext_iff]
    constructor <;> · simp; try ring

/-! ### Stagger origin versus pre-rotation shift (C2) -/

/-- C2 (amended): in Quadrant I (`ΔNorthing > 0` and `ΔEasting > 0`) a
plot whose original row has stagger parity `0` is exported by rotating its
local corners (unbuffered and buffered alike) around the stagger-shifted
origin, which equals shifting the range-axis coordinate of each local
corner by `+d` before rotating around `A`; a plot with parity `≠ 0`
rotates around `A` unchanged. (In Quadrants II-IV the implementation's
shifted origin is a different vector of magnitude `d`, so the equivalence
fails there; see the counterexample.) -/
theorem stagger_shift_spec (dE dN AE AN d : ℝ) (s pp o : ℤ)
    (h1 : 0 < dN) (h2 : 0 < dE) :
    (staggerParity o s pp = 0 →
      ∀ p : ℝ × ℝ, exportPt dE dN AE AN (some (s, pp, d)) o p =
        rotPt (Theta dE dN) AN AE (p.1 + d, p.2)) ∧
    (staggerParity o s pp ≠ 0 →
      ∀ p : ℝ × ℝ, exportPt dE dN AE AN (some (s, pp, d)) o p =
        rotPt (Theta dE dN) AN AE p) := by
  constructor
  · intro hpar p
    simp only [exportPt, if_pos hpar]
    simp only [staggerOrigin, if_pos (⟨h1, h2⟩ : 0 < dN ∧ 0 < dE)]
    simp only [rotPt]
    rw [Prod.ext_iff]
    constructor <;> · simp; try ring
  · intro hpar p
    simp only [exportPt, if_neg hpar]

/-- Witness for C2 (amended) in Quadrant I with stagger `(2, 2, 1)` and
original row `2` (parity `0`). -/
theorem stagger_shift_spec_witness :
    (0 : ℝ) < 1 ∧ staggerParity 2 2 2 = 0 ∧
      exportPt 1 1 0 0 (some (2, 2, 1)) 2 (0, 0) =
        rotPt (Theta 1 1) 0 0 ((0 : ℝ) + 1, 0) := by
  refine ⟨by norm_num, by decide, ?_⟩
  exact (stagger_shift_spec 1 1 0 0 1 2 2 2 (by norm_num) (by norm_num)).1
    (by decide) (0, 0)

/-- C2 counterexample: in Quadrant III (`A=(0,0)`, `B=(−1,−1)`), with
stagger spec `(2, 2, 1)` and original row `2` (parity `0`), the exported
bottom-left corner of the staggered plot does not equal the rotation of
the `+d`-shifted local corner around `A`. -/
theorem stagger_shift_cex :
    staggerParity 2 2 2 = 0 ∧
      exportPt (-1 : ℝ) (-1) 0 0 (some (2, 2, 1)) 2 (0, 0) ≠
        rotPt (Theta (-1 : ℝ) (-1)) 0 0 ((0 : ℝ) + 1, 0) := by
  have hpar : staggerParity 2 2 2 = 0 := by decide
  have hDT : DirectionTheta (-1 : ℝ) (-1) = π / 4 := by
    simp only [DirectionTheta]
    norm_num [Real.arctan_one]
  have hθ : Theta (-1 : ℝ) (-1) = π / 2 + π / 4 := by
    simp only [Theta]
    rw [if_neg (by norm_num), if_neg (by norm_num),
      if_pos (⟨by norm_num, by norm_num⟩ : (-1 : ℝ) < 0 ∧ (-1 : ℝ) < 0), hDT]
  have hs : sin (Theta (-1 : ℝ) (-1)) = √2 / 2 := by
    rw [hθ, Real.sin_add, Real.sin_pi_div_two, Real.cos_pi_div_two,
      Real.cos_pi_div_four, Real.sin_pi_div_four]
    ring
  have hc : cos (Theta (-1 : ℝ) (-1)) = -(√2 / 2) := by
    rw [hθ, Real.cos_add, Real.sin_pi_div_two, Real.cos_pi_div_two,
      Real.cos_pi_div_four, Real.sin_pi_div_four]
    ring
  refine ⟨hpar, fun heq => ?_⟩
  have hL : exportPt (-1 : ℝ) (-1) 0 0 (some (2, 2, 1)) 2 (0, 0) =
      (√2 / 2, √2 / 2) := by
    simp only [exportPt, if_pos hpar, staggerOrigin]
    rw [if_neg (by norm_num), if_neg (by norm_num),
      if_pos (⟨by norm_num, by norm_num⟩ : (-1 : ℝ) < 0 ∧ (-1 : ℝ) < 0)]
    simp only [rotPt, hs, hc]
    rw [Prod.ext_iff]
    constructor <;> · simp; try ring
  have hR : rotPt (Theta (-1 : ℝ) (-1)) 0 0 ((0 : ℝ) + 1, 0) =
      (-(√2 / 2), -(√2 / 2)) := by
    simp only [rotPt, hs, hc]
    rw [Prod.ext_iff]
    constructor <;> · simp; try ring
  rw [hL, hR, Prod.ext_iff] at heq
  have h2 : (0 : ℝ) < √2 := Real.sqrt_pos.mpr (by norm_num)
  have h3 := heq.1
  simp only at h3
  linarith

/-! ### The discrete record pipeline (source lines 116-266, 384-386) -/

/-- An input record: one row of `infile` (grid indices and barcode label). -/
structure InRec where
  plot : ℤ
  rng : ℤ
  row : ℤ
  label : String
deriving DecidableEq, Repr

/-- A normalized record: columns 0, 1, 2, 11 of `PlotsSquareM`. -/
structure SqRow where
  plot : ℤ
  rng : ℤ
  row : ℤ
  origRow : ℤ
deriving DecidableEq, Repr

def insertLe {α : Type} (le : α → α → Bool) (x : α) : List α → List α
  | [] => [x]
  | y :: ys => if le x y then x :: y :: ys else y :: insertLe le x ys

/-- Stable insertion sort (models the stable sorts of `pandas.sort_values`
and `np.argsort`). -/
def sortLe {α : Type} (le : α → α → Bool) : List α → List α
  | [] => []
  | x :: xs => insertLe le x (sortLe le xs)

/-- Sort key of source line 137: by `Plot`, then by `Row`. -/
def plotRowLe (a b : InRec) : Bool :=
  a.plot < b.plot || (a.plot == b.plot && a.row ≤ b.row)

def minI : List ℤ → ℤ
  | [] => 0
  | x :: xs => xs.foldl min x

def maxI : List ℤ → ℤ
  | [] => 0
  | x :: xs => xs.foldl max x

/-- Grid normalization of source lines 182-185: re-index `Range` and `Row`
to be 1-based and keep the original (normalized) row in column 11. -/
def normalize (l : List InRec) : List SqRow :=
  let mr := minI (l.map (·.rng))
  let mw := minI (l.map (·.row))
  l.map fun r => ⟨r.plot, r.rng - mr + 1, r.row - mw + 1, r.row - mw + 1⟩

/-- `np.arange(start, stop, step)` on integers (used with positive step). -/
def arangeInt (start stop step : ℤ) : List ℤ :=
  (List.range ((stop - start + step - 1) / step).toNat).map
    fun k : ℕ => start + step * (k : ℤ)

/-- The combined-rows keep mask of source lines 200-203. -/
def combinedMask (recs : List SqRow) (n ps : ℤ) : List Bool :=
  let mx := maxI (recs.map (·.row))
  recs.map fun r =>
    r.row == 1 + ps || (arangeInt (1 + n + ps) (mx + 1) n).contains r.row

/-- Keep the entries of a list at the positions where a mask is `true`
(boolean indexing of source lines 205-206, 246-247, 253-255). -/
def applyMask {α : Type} : List Bool → List α → List α
  | b :: bs, x :: xs => if b then x :: applyMask bs xs else applyMask bs xs
  | _, _ => []

/-- The combined-rows renumbering of source lines 209-211: a kept row
greater than 1 becomes `ceil(row / nrowplot)`. -/
def renumber (recs : List SqRow) (n : ℤ) : List SqRow :=
  recs.map fun r => if 1 < r.row then { r with row := ceilDiv r.row n } else r

/-- Structural helper for `uniqFirst`, with the list length as fuel. -/
def uniqFirstAux {α : Type} [DecidableEq α] : ℕ → List α → List α
  | 0, _ => []
  | _, [] => []
  | fuel + 1, x :: xs => x :: uniqFirstAux fuel (xs.filter (· != x))

/-- Distinct values in order of first occurrence (`pandas.unique`). -/
def uniqFirst {α : Type} [DecidableEq α] (l : List α) : List α :=
  uniqFirstAux l.length l

/-- The per-label-group relabeling of source lines 215-225: for each
distinct barcode in first-occurrence order, emit `label_1, …, label_k`
where `k` is that barcode's multiplicity. -/
def relabelNames (names : List String) : List String :=
  List.flatten ((uniqFirst names).map fun b =>
    (List.range (names.count b)).map fun k => b ++ "_" ++ toString (k + 1))

/-- The interior-rows subset mask of source lines 237-244. -/
def subsetMask (recs : List SqRow) (ps : ℤ) : List Bool :=
  recs.map fun r =>
    let prs := (recs.filter (fun q => q.plot == r.plot)).map (·.row)
    (arangeInt (minI prs + ps) (maxI prs - ps + 1) 1).contains r.row

/-- One serpentine pass (source lines 252-263): select the records at
range `i` together with their labels, sort stably by local row, and
reverse when `i` is even. -/
def serpPassPairs (recs : List SqRow) (names : List String) (i : ℤ) :
    List (SqRow × String) :=
  let m := recs.map fun r => r.rng == i
  let pairs := (applyMask m recs).zip (applyMask m names)
  let sorted := sortLe (fun a b => a.1.row ≤ b.1.row) pairs
  if i % 2 == 0 then sorted.reverse else sorted

/-- Serpentine ordering (source lines 249-266): concatenate the passes for
ranges `1..nRange` in increasing order. -/
def serpentine (recs : List SqRow) (names : List String) (n : ℕ) :
    List (SqRow × String) :=
  List.flatten ((List.range n).map fun j : ℕ => serpPassPairs recs names ((j : ℤ) + 1))

/-- The configuration parameters of `plotshpcreate` that drive validation
and row grouping; `hasPlot`, …, `hasBarcode` record which required columns
are present in `infile`. -/
structure Cfg where
  hasPlot : Bool
  hasRange : Bool
  hasRow : Bool
  hasBarcode : Bool
  nrowplot : ℤ
  multirowind : Bool
  plotsubset : ℤ
  stagger : Option (ℤ × ℤ × ℚ)
deriving DecidableEq, Repr

/-- The missing-columns check of source lines 119-122. -/
def missingCols (c : Cfg) : Bool :=
  !(c.hasPlot && c.hasRange && c.hasRow && c.hasBarcode)

/-- The stagger validation of source lines 125-131. -/
def staggerBad (c : Cfg) : Bool :=
  match c.stagger with
  | none => false
  | some (s0, s1, _) =>
    s0 == 1 || s0 > s1 + 1 ||
      (c.nrowplot > 1 && !c.multirowind && 2 * c.nrowplot > s1)

/-- The subset validation of source lines 228-234 (reached exactly when
`plotsubset ≠ 0`). -/
def subsetBad (c : Cfg) : Bool :=
  c.plotsubset != 0 &&
    (c.nrowplot == 1 || c.nrowplot < 3 || c.nrowplot == 2 * c.plotsubset)

/-- The record pipeline of `plotshpcreate` up to the emission order:
validation, stable sort, normalization, row grouping, serpentine
ordering. Returns the ordered `(record, label)` pairs handed to the
geometry stage, or the first raised `ValueError`. -/
def pipeline (c : Cfg) (l : List InRec) :
    Except String (List (SqRow × String)) :=
  if missingCols c then .error "infile missing required columns"
  else if staggerBad c then .error "invalid stagger specification"
  else
    let sorted := sortLe plotRowLe l
    let nRange := (uniqFirst (sorted.map (·.rng))).length
    let recs0 := normalize sorted
    let names0 := sorted.map (·.label)
    let keep := c.nrowplot > 1 && !c.multirowind && c.plotsubset == 0
    let recs1 := if keep then
        renumber (applyMask (combinedMask recs0 c.nrowplot c.plotsubset) recs0)
          c.nrowplot
      else recs0
    let names1 := if keep then
        applyMask (combinedMask recs0 c.nrowplot c.plotsubset) names0
      else names0
    if c.nrowplot > 1 && c.multirowind || c.plotsubset != 0 then
      let names2 := (relabelNames names1).take recs1.length
      if c.plotsubset != 0 then
        if c.nrowplot == 1 then .error "nrowplot == 1: cannot subset singular plot"
        else if c.nrowplot < 3 then .error "nrowplot < 3: cannot subset central plot"
        else if c.nrowplot == 2 * c.plotsubset then .error "no polygons will be created"
        else
          let m := subsetMask recs1 c.plotsubset
          .ok (serpentine (applyMask m recs1) (applyMask m names2) nRange)
      else .ok (serpentine recs1 names2 nRange)
    else .ok (serpentine recs1 names1 nRange)

/-- The exported unbuffered polygon ring of one record (source lines
272-284, 342-366, 465-474): the four rotated corners in writer order plus
the repeated first point. -/
noncomputable def recUnbufPoly (dE dN AE AN : ℝ) (stag : Option (ℤ × ℤ × ℝ))
    (RS WS : ℝ) (r : SqRow) : List (ℝ × ℝ) :=
  [shpPoint (exportPt dE dN AE AN stag r.origRow (cornerBL r.rng r.row RS WS)),
   shpPoint (exportPt dE dN AE AN stag r.origRow (cornerBR r.rng r.row RS WS)),
   shpPoint (exportPt dE dN AE AN stag r.origRow (cornerTR r.rng r.row RS WS)),
   shpPoint (exportPt dE dN AE AN stag r.origRow (cornerTL r.rng r.row RS WS)),
   shpPoint (exportPt dE dN AE AN stag r.origRow (cornerBL r.rng r.row RS WS))]

/-- The exported buffered polygon ring of one record (source lines
297-312 then rotation and writing). -/
noncomputable def recBufPoly (dE dN AE AN : ℝ) (stag : Option (ℤ × ℤ × ℝ))
    (RS WS RB WB : ℝ) (r : SqRow) : List (ℝ × ℝ) :=
  [shpPoint (exportPt dE dN AE AN stag r.origRow (bufBL (cornerBL r.rng r.row RS WS) RB WB)),
   shpPoint (exportPt dE dN AE AN stag r.origRow (bufBR (cornerBR r.rng r.row RS WS) RB WB)),
   shpPoint (exportPt dE dN AE AN stag r.origRow (bufTR (cornerTR r.rng r.row RS WS) RB WB)),
   shpPoint (exportPt dE dN AE AN stag r.origRow (bufTL (cornerTL r.rng r.row RS WS) RB WB)),
   shpPoint (exportPt dE dN AE AN stag r.origRow (bufBL (cornerBL r.rng r.row RS WS) RB WB))]

/-- The two output artifact sets (source lines 385-386): the unbuffered and
buffered labeled polygon sequences, or the raised error. -/
noncomputable def fullArtifacts (c : Cfg) (l : List InRec) (dE dN AE AN : ℝ)
    (stag : Option (ℤ × ℤ × ℝ)) (RS WS RB WB : ℝ) :
    Except String
      (List (String × List (ℝ × ℝ)) × List (String × List (ℝ × ℝ))) :=
  (pipeline c l).map fun res =>
    (res.map fun pr => (pr.2, recUnbufPoly dE dN AE AN stag RS WS pr.1),
     res.map fun pr => (pr.2, recBufPoly dE dN AE AN stag RS WS RB WB pr.1))

/-- Row spacing in meters (source lines 167-177). -/
def rowSpacingM (feet : Bool) (rowspc : ℚ) : ℚ :=
  if feet then rowspc / 3.281 else rowspc

/-- Combined-rows row spacing in meters (source lines 193-196). -/
def combinedRowSpacingM (feet : Bool) (n : ℤ) (rowspc : ℚ) : ℚ :=
  if feet then ((n : ℚ) * rowspc) / 3.281 else (n : ℚ) * rowspc

/-! ### Validation (C6, C7) -/

theorem pipeline_error_iff (c : Cfg) (l : List InRec) :
    (∃ e, pipeline c l = .error e) ↔
      (missingCols c || staggerBad c || subsetBad c) = true := by
  simp only [pipeline]
  split_ifs with h1 h2 h3 h4 h5 h6 h7
  all_goals simp_all [subsetBad]

/-- C6: a `ValidationError` is raised exactly when a required column is
absent, the stagger spec is invalid (`startRow = 1`, or
`startRow > rowsPerPass + 1`, or combining rows with
`nrowplot > rowsPerPass / 2`), or the subset configuration is invalid
(`plotsubset ≠ 0` together with `nrowplot = 1`, `nrowplot < 3`, or
`nrowplot = 2·plotsubset`). In particular any configuration with stagger
`(1, 2, q)` raises, and any with `nrowplot = 2`, `plotsubset = 1`
raises. -/
theorem validation_error_spec :
    (∀ (c : Cfg) (l : List InRec),
      (∃ e, pipeline c l = .error e) ↔
        missingCols c = true ∨ staggerBad c = true ∨ subsetBad c = true) ∧
    (∀ (c : Cfg) (l : List InRec) (q : ℚ), c.stagger = some (1, 2, q) →
      ∃ e, pipeline c l = .error e) ∧
    (∀ (c : Cfg) (l : List InRec), c.nrowplot = 2 → c.plotsubset = 1 →
      ∃ e, pipeline c l = .error e) := by
  refine ⟨?_, ?_, ?_⟩
  · intro c l
    rw [pipeline_error_iff]
    simp [Bool.or_eq_true, or_assoc]
  · intro c l q hstag
    rw [pipeline_error_iff]
    have : staggerBad c = true := by
      simp [staggerBad, hstag]
    simp [this]
  · intro c l hn hp
    rw [pipeline_error_iff]
    have : subsetBad c = true := by
      simp [subsetBad, hn, hp]
    simp [this]

/-- Witness for C6: the configuration with stagger `(1, 2, 1/2)` raises. -/
theorem validation_error_spec_witness :
    (Cfg.mk true true true true 1 false 0 (some (1, 2, 1/2))).stagger =
        some (1, 2, 1/2) ∧
      ∃ e, pipeline (Cfg.mk true true true true 1 false 0 (some (1, 2, 1/2))) [] =
        .error e :=
  ⟨rfl, validation_error_spec.2.1
    (Cfg.mk true true true true 1 false 0 (some (1, 2, 1/2))) [] (1/2) rfl⟩

/-- C7: whenever validation fails, no output artifact is produced: the
pipeline yields an error before any rectangle geometry is built, so
neither a partial unbuffered nor a partial buffered polygon set exists. -/
theorem no_partial_output_spec (c : Cfg) (l : List InRec)
    (h : missingCols c = true ∨ staggerBad c = true ∨ subsetBad c = true) :
    ∀ (dE dN AE AN : ℝ) (stag : Option (ℤ × ℤ × ℝ)) (RS WS RB WB : ℝ),
      ¬ ∃ out, fullArtifacts c l dE dN AE AN stag RS WS RB WB = .ok out := by
  intro dE dN AE AN stag RS WS RB WB
  rintro ⟨out, hout⟩
  have hb : (missingCols c || staggerBad c || subsetBad c) = true := by
    rcases h with h | h | h <;> simp [h]
  obtain ⟨e, he⟩ := (pipeline_error_iff c l).mpr hb
  rw [fullArtifacts, he] at hout
  simp [Except.map] at hout

/-- Witness for C7 at a configuration with a missing `Plot` column. -/
theorem no_partial_output_spec_witness :
    missingCols (Cfg.mk false true true true 1 false 0 none) = true ∧
      ¬ ∃ out, fullArtifacts (Cfg.mk false true true true 1 false 0 none) []
        1 1 0 0 none 1 1 0 0 = .ok out :=
  ⟨by decide, no_partial_output_spec _ [] (Or.inl (by decide)) 1 1 0 0 none 1 1 0 0⟩

/-! ### List helper lemmas -/

theorem applyMask_map_self {α : Type} (f : α → Bool) (l : List α) :
    applyMask (l.map f) l = l.filter f := by
  induction l with
  | nil => rfl
  | cons x xs ih =>
    by_cases h : f x <;> simp [applyMask, h, ih, List.filter_cons]

theorem applyMask_zip {α β : Type} (m : List Bool) (xs : List α) (ys : List β)
    (h : xs.length = ys.length) :
    applyMask m (xs.zip ys) = (applyMask m xs).zip (applyMask m ys) := by
  induction m generalizing xs ys with
  | nil => rfl
  | cons b bs ih =>
    cases xs with
    | nil =>
      cases ys with
      | nil => rfl
      | cons y ys2 => simp at h
    | cons x xs2 =>
      cases ys with
      | nil => simp at h
      | cons y ys2 =>
        have h2 : xs2.length = ys2.length := by simpa using h
        show applyMask (b :: bs) ((x, y) :: xs2.zip ys2) =
          (applyMask (b :: bs) (x :: xs2)).zip (applyMask (b :: bs) (y :: ys2))
        simp only [applyMask]
        by_cases hb : b
        · rw [if_pos hb, if_pos hb, if_pos hb, List.zip_cons_cons, ih xs2 ys2 h2]
        · rw [if_neg hb, if_neg hb, if_neg hb, ih xs2 ys2 h2]

theorem applyMask_length_eq {α β : Type} (m : List Bool) (xs : List α)
    (ys : List β) (h : xs.length = ys.length) :
    (applyMask m xs).length = (applyMask m ys).length := by
  induction m generalizing xs ys with
  | nil => cases xs <;> cases ys <;> rfl
  | cons b bs ih =>
    cases xs with
    | nil =>
      cases ys with
      | nil => rfl
      | cons y ys2 => simp at h
    | cons x xs2 =>
      cases ys with
      | nil => simp at h
      | cons y ys2 =>
        have h2 : xs2.length = ys2.length := by simpa using h
        simp only [applyMask]
        by_cases hb : b
        · rw [if_pos hb, if_pos hb]
          simp [ih xs2 ys2 h2]
        · rw [if_neg hb, if_neg hb]
          exact ih xs2 ys2 h2

theorem mem_applyMask {α : Type} (m : List Bool) (xs : List α) (x : α)
    (h : x ∈ applyMask m xs) : x ∈ xs := by
  induction m generalizing xs with
  | nil => cases xs <;> simp [applyMask] at h
  | cons b bs ih =>
    cases xs with
    | nil => simp [applyMask] at h
    | cons y ys =>
      simp only [applyMask] at h
      by_cases hb : b
      · rw [if_pos hb] at h
        rcases List.mem_cons.mp h with h | h
        · exact h ▸ List.mem_cons_self y ys
        · exact List.mem_cons_of_mem y (ih ys h)
      · rw [if_neg hb] at h
        exact List.mem_cons_of_mem y (ih ys h)

theorem applyMask_map_zip_filter {α β : Type} (f : α → Bool) (xs : List α)
    (ys : List β) (h : xs.length = ys.length) :
    applyMask (xs.map f) (xs.zip ys) = (xs.zip ys).filter (fun pr => f pr.1) := by
  induction xs generalizing ys with
  | nil => rfl
  | cons x xs2 ih =>
    cases ys with
    | nil => simp at h
    | cons y ys2 =>
      have h2 : xs2.length = ys2.length := by simpa using h
      show applyMask (f x :: xs2.map f) ((x, y) :: xs2.zip ys2) =
        ((x, y) :: xs2.zip ys2).filter (fun pr => f pr.1)
      simp only [applyMask, List.filter_cons]
      by_cases hf : f x
      · rw [if_pos hf, ih ys2 h2, if_pos (by simpa using hf)]
      · rw [if_neg hf, ih ys2 h2, if_neg (by simpa using hf)]

theorem foldl_max_ge_init (l : List ℤ) (a : ℤ) : a ≤ l.foldl max a := by
  induction l generalizing a with
  | nil => simp
  | cons x xs ih =>
    simp only [List.foldl_cons]
    exact le_trans (le_max_left a x) (ih (max a x))

theorem foldl_max_ge_mem (l : List ℤ) (x : ℤ) :
    ∀ a : ℤ, x ∈ l → x ≤ l.foldl max a := by
  induction l with
  | nil => intro a h; simp at h
  | cons y ys ih =>
    intro a h
    simp only [List.foldl_cons]
    rcases List.mem_cons.mp h with h2 | h2
    · subst h2
      exact le_trans (le_max_right a x) (foldl_max_ge_init ys (max a x))
    · exact ih (max a y) h2

theorem le_maxI {l : List ℤ} {x : ℤ} (h : x ∈ l) : x ≤ maxI l := by
  cases l with
  | nil => simp at h
  | cons y ys =>
    simp only [maxI]
    rcases List.mem_cons.mp h with h | h
    · exact h ▸ foldl_max_ge_init ys y
    · exact foldl_max_ge_mem ys x y h

theorem mem_arangeInt {s t st x : ℤ} (hst : 0 < st) :
    x ∈ arangeInt s t st ↔ ∃ k : ℕ, x = s + st * k ∧ x < t := by
  unfold arangeInt
  simp only [List.mem_map, List.mem_range]
  constructor
  · rintro ⟨k, hk, rfl⟩
    rw [Int.lt_toNat, Int.lt_iff_add_one_le, Int.le_ediv_iff_mul_le hst] at hk
    refine ⟨k, rfl, ?_⟩
    nlinarith [hk]
  · rintro ⟨k, rfl, hlt⟩
    refine ⟨k, ?_, rfl⟩
    rw [Int.lt_toNat, Int.lt_iff_add_one_le, Int.le_ediv_iff_mul_le hst]
    nlinarith [hlt]

theorem ceilDiv_one {n : ℤ} (hn : 0 < n) : ceilDiv 1 n = 1 := by
  have h1 : (-1 : ℤ) / n < 0 := Int.ediv_neg' (by norm_num) hn
  have h2 : (-1 : ℤ) ≤ -1 / n := by
    rw [Int.le_ediv_iff_mul_le hn]
    nlinarith
  simp only [ceilDiv]
  omega

/-- `ceilDiv` is the mathematical ceiling of the exact division. -/
theorem ceilDiv_eq_ceil (a n : ℤ) (hn : 0 < n) :
    ceilDiv a n = ⌈(a : ℚ) / (n : ℚ)⌉ := by
  have hq := Int.ediv_add_emod (-a) n
  have hr0 : 0 ≤ (-a) % n := Int.emod_nonneg _ hn.ne'
  have hrn : (-a) % n < n := Int.emod_lt_of_pos _ hn
  set q := (-a) / n with hqdef
  have hub : n * q ≤ -a := by omega
  have hlb : -a < n * (q + 1) := by nlinarith
  have hnq : (0 : ℚ) < (n : ℚ) := by exact_mod_cast hn
  symm
  rw [Int.ceil_eq_iff]
  constructor
  · rw [show ((ceilDiv a n : ℤ) : ℚ) - 1 = (((-q - 1) : ℤ) : ℚ) by
      simp only [ceilDiv]
      push_cast
      ring]
    rw [lt_div_iff₀ hnq]
    have : ((-q - 1) : ℤ) * n < a := by nlinarith
    exact_mod_cast this
  · rw [div_le_iff₀ hnq]
    have : a ≤ (ceilDiv a n : ℤ) * n := by
      simp only [ceilDiv]
      nlinarith
    exact_mod_cast this

/-! ### Combined rows (C4) -/

theorem dvd_progression_iff {n row : ℤ} (hn : 0 < n) (hrow : 1 ≤ row) :
    (row - 1) % n = 0 ↔ ∃ k : ℕ, row = 1 + n * k := by
  constructor
  · intro h
    obtain ⟨m, hm⟩ := Int.dvd_iff_emod_eq_zero.mpr h
    have hm0 : 0 ≤ m := by nlinarith
    refine ⟨m.toNat, ?_⟩
    rw [Int.toNat_of_nonneg hm0]
    omega
  · rintro ⟨k, rfl⟩
    have : 1 + n * (k : ℤ) - 1 = n * (k : ℤ) := by ring
    rw [this, Int.mul_emod_right]

theorem combined_keep_iff {n row mx : ℤ} (hn : 1 < n) (hrow : 1 ≤ row)
    (hmx : row ≤ mx) :
    (row == 1 + 0 || (arangeInt (1 + n + 0) (mx + 1) n).contains row) =
      ((row - 1) % n == 0) := by
  have hn0 : (0 : ℤ) < n := by omega
  rw [Bool.eq_iff_iff]
  simp only [Bool.or_eq_true, beq_iff_eq, List.contains_eq_any_beq,
    List.any_eq_true, beq_iff_eq]
  constructor
  · rintro (h | ⟨y, hy, rfl⟩)
    · subst h; simp
    · obtain ⟨k, rfl, -⟩ := (mem_arangeInt hn0).mp hy
      have : 1 + n + 0 + n * (k : ℤ) - 1 = n * ((k : ℤ) + 1) := by ring
      rw [this, Int.mul_emod_right]
  · intro h
    obtain ⟨k, hk⟩ := (dvd_progression_iff hn0 hrow).mp h
    cases k with
    | zero => left; omega
    | succ k2 =>
      right
      refine ⟨row, ?_, rfl⟩
      rw [mem_arangeInt hn0]
      refine ⟨k2, ?_, by omega⟩
      push_cast at hk ⊢
      rw [hk]
      ring

/-- C4: in CombinedRows mode the row spacing used for rectangle
construction is `nrowplot` times the base spacing, the keep-mask retains
exactly the records at local rows `1, 1+n, 1+2n, …` (rows congruent to 1
mod `n`), kept records are renumbered to `ceil(row/n)` (where `ceilDiv`
is the exact rational ceiling), labels pass through the mask unchanged,
and the concrete 4-rows-per-group, `nrowplot = 2` instance yields exactly
2 records with renumbered rows `[1, 2]` and their original labels. -/
theorem combined_rows_spec :
    (∀ (feet : Bool) (n : ℤ) (rowspc : ℚ),
      combinedRowSpacingM feet n rowspc = (n : ℚ) * rowSpacingM feet rowspc) ∧
    (∀ (recs : List SqRow) (n : ℤ), 1 < n → (∀ r ∈ recs, 1 ≤ r.row) →
      applyMask (combinedMask recs n 0) recs =
        recs.filter (fun r => (r.row - 1) % n == 0) ∧
      ∀ r ∈ recs, (((r.row - 1) % n == 0) = true ↔ ∃ k : ℕ, r.row = 1 + n * k)) ∧
    (∀ (recs : List SqRow) (n : ℤ), 0 < n → (∀ r ∈ recs, 1 ≤ r.row) →
      (renumber recs n).map (·.row) = recs.map (fun r => ceilDiv r.row n)) ∧
    (∀ (a n : ℤ), 0 < n → ceilDiv a n = ⌈(a : ℚ) / (n : ℚ)⌉) ∧
    (∀ (m : List Bool) (names : List String) (nm : String),
      nm ∈ applyMask m names → nm ∈ names) ∧
    ((renumber (applyMask (combinedMask
        [⟨1, 1, 1, 1⟩, ⟨1, 1, 2, 2⟩, ⟨1, 1, 3, 3⟩, ⟨1, 1, 4, 4⟩] 2 0)
        [⟨1, 1, 1, 1⟩, ⟨1, 1, 2, 2⟩, ⟨1, 1, 3, 3⟩, ⟨1, 1, 4, 4⟩]) 2).map (·.row)
      = [1, 2] ∧
     applyMask (combinedMask
        ([⟨1, 1, 1, 1⟩, ⟨1, 1, 2, 2⟩, ⟨1, 1, 3, 3⟩, ⟨1, 1, 4, 4⟩] : List SqRow) 2 0)
        ["a", "b", "c", "d"] = ["a", "c"]) := by
  refine ⟨?_, ?_, ?_, fun a n hn => ceilDiv_eq_ceil a n hn, ?_, by decide, by decide⟩
  · intro feet n rowspc
    cases feet <;> simp [combinedRowSpacingM, rowSpacingM] <;> ring
  · intro recs n hn hrows
    have hmask : combinedMask recs n 0 = recs.map (fun r =>
        r.row == 1 + 0 ||
          (arangeInt (1 + n + 0) (maxI (recs.map (·.row)) + 1) n).contains r.row) := rfl
    constructor
    · rw [hmask, applyMask_map_self]
      apply List.filter_congr
      intro r hr
      exact combined_keep_iff hn (hrows r hr)
        (le_maxI (List.mem_map.mpr ⟨r, hr, rfl⟩))
    · intro r hr
      simp only [beq_iff_eq]
      exact dvd_progression_iff (by omega) (hrows r hr)
  · intro recs n hn hrows
    simp only [renumber, List.map_map]
    apply List.map_congr_left
    intro r hr
    simp only [Function.comp_apply]
    by_cases h : 1 < r.row
    · rw [if_pos h]
    · rw [if_neg h]
      have h1 : r.row = 1 := by
        have := hrows r hr
        omega
      rw [h1, ceilDiv_one hn]
  · intro m names nm h
    exact mem_applyMask m names nm h

/-- Witness for C4 at the concrete 4-row grid with `n = 2`. -/
theorem combined_rows_spec_witness :
    ((1 : ℤ) < 2) ∧
      (∀ r ∈ ([⟨1, 1, 1, 1⟩, ⟨1, 1, 2, 2⟩, ⟨1, 1, 3, 3⟩, ⟨1, 1, 4, 4⟩] : List SqRow),
        1 ≤ r.row) ∧
      applyMask (combinedMask
          [⟨1, 1, 1, 1⟩, ⟨1, 1, 2, 2⟩, ⟨1, 1, 3, 3⟩, ⟨1, 1, 4, 4⟩] 2 0)
          [⟨1, 1, 1, 1⟩, ⟨1, 1, 2, 2⟩, ⟨1, 1, 3, 3⟩, ⟨1, 1, 4, 4⟩] =
        ([⟨1, 1, 1, 1⟩, ⟨1, 1, 2, 2⟩, ⟨1, 1, 3, 3⟩, ⟨1, 1, 4, 4⟩] : List SqRow).filter
          (fun r => (r.row - 1) % 2 == 0) := by
  refine ⟨by norm_num, by decide, ?_⟩
  exact (combined_rows_spec.2.1
    [⟨1, 1, 1, 1⟩, ⟨1, 1, 2, 2⟩, ⟨1, 1, 3, 3⟩, ⟨1, 1, 4, 4⟩] 2
    (by norm_num) (by decide)).1

/-! ### Sorting and serpentine ordering (C5, C9) -/

/-- Emission order relation: ascending local row. -/
def rowOrder (a b : SqRow × String) : Prop := a.1.row ≤ b.1.row

theorem perm_insertLe {α : Type} (le : α → α → Bool) (x : α) (l : List α) :
    (insertLe le x l).Perm (x :: l) := by
  induction l with
  | nil => exact List.Perm.refl _
  | cons y ys ih =>
    simp only [insertLe]
    by_cases h : le x y
    · rw [if_pos h]
    · rw [if_neg h]
      exact (ih.cons y).trans (List.Perm.swap x y ys)

theorem perm_sortLe {α : Type} (le : α → α → Bool) (l : List α) :
    (sortLe le l).Perm l := by
  induction l with
  | nil => exact List.Perm.nil
  | cons x xs ih =>
    simp only [sortLe]
    exact (perm_insertLe le x (sortLe le xs)).trans (ih.cons x)

theorem pairwise_insertLe_row (x : SqRow × String) (l : List (SqRow × String))
    (h : l.Pairwise rowOrder) :
    (insertLe (fun a b => a.1.row ≤ b.1.row) x l).Pairwise rowOrder := by
  induction l with
  | nil => simp [insertLe, rowOrder]
  | cons y ys ih =>
    rw [List.pairwise_cons] at h
    simp only [insertLe]
    split_ifs with hc
    · have hxy : x.1.row ≤ y.1.row := by simpa using hc
      refine List.Pairwise.cons ?_ (List.Pairwise.cons h.1 h.2)
      intro z hz
      rcases List.mem_cons.mp hz with hz | hz
      · exact hz ▸ hxy
      · exact le_trans hxy (h.1 z hz)
    · have hyx : y.1.row ≤ x.1.row := by
        have : ¬ x.1.row ≤ y.1.row := by simpa using hc
        omega
      refine List.Pairwise.cons ?_ (ih h.2)
      intro z hz
      have hz2 : z ∈ x :: ys := (perm_insertLe _ x ys).mem_iff.mp hz
      rcases List.mem_cons.mp hz2 with hz2 | hz2
      · exact hz2 ▸ hyx
      · exact h.1 z hz2

theorem pairwise_sortLe_row (l : List (SqRow × String)) :
    (sortLe (fun a b => a.1.row ≤ b.1.row) l).Pairwise rowOrder := by
  induction l with
  | nil => exact List.Pairwise.nil
  | cons x xs ih => exact pairwise_insertLe_row x _ ih

theorem serpPassPairs_eq (recs : List SqRow) (names : List String) (i : ℤ)
    (h : names.length = recs.length) :
    serpPassPairs recs names i =
      (if i % 2 == 0
        then (sortLe (fun a b => a.1.row ≤ b.1.row)
          ((recs.zip names).filter (fun pr => pr.1.rng == i))).reverse
        else sortLe (fun a b => a.1.row ≤ b.1.row)
          ((recs.zip names).filter (fun pr => pr.1.rng == i))) := by
  simp only [serpPassPairs]
  rw [← applyMask_zip _ recs names h.symm,
    applyMask_map_zip_filter _ recs names h.symm]

theorem serpPass_perm_filter (recs : List SqRow) (names : List String) (i : ℤ)
    (h : names.length = recs.length) :
    (serpPassPairs recs names i).Perm
      ((recs.zip names).filter (fun pr => pr.1.rng == i)) := by
  rw [serpPassPairs_eq recs names i h]
  split_ifs with hc
  · exact (List.reverse_perm _).trans (perm_sortLe _ _)
  · exact perm_sortLe _ _

theorem filter_or_perm {α : Type} (p q : α → Bool) (l : List α)
    (hdisj : ∀ a ∈ l, ¬(p a = true ∧ q a = true)) :
    (l.filter (fun a => p a || q a)).Perm (l.filter p ++ l.filter q) := by
  induction l with
  | nil => simp
  | cons x xs ih =>
    have ihx := ih (fun a ha => hdisj a (List.mem_cons_of_mem x ha))
    by_cases hp : p x = true
    · have hq : ¬ q x = true := fun hq2 => hdisj x (List.mem_cons_self x xs) ⟨hp, hq2⟩
      simp only [List.filter_cons]
      rw [if_pos (by simp [hp]), if_pos hp, if_neg hq, List.cons_append]
      exact ihx.cons x
    · by_cases hq : q x = true
      · simp only [List.filter_cons]
        rw [if_pos (by simp [hq]), if_neg hp, if_pos hq]
        exact (ihx.cons x).trans List.perm_middle.symm
      · simp only [List.filter_cons]
        rw [if_neg (by simp [hp, hq]), if_neg hp, if_neg hq]
        exact ihx

theorem serpentine_perm_filter (recs : List SqRow) (names : List String)
    (n : ℕ) (h : names.length = recs.length) :
    (serpentine recs names n).Perm
      ((recs.zip names).filter
        (fun pr => decide (1 ≤ pr.1.rng) && decide (pr.1.rng ≤ (n : ℤ)))) := by
  induction n with
  | zero =>
    simp only [serpentine, List.range_zero, List.map_nil, List.flatten_nil]
    have hnil : (recs.zip names).filter
        (fun pr => decide (1 ≤ pr.1.rng) && decide (pr.1.rng ≤ ((0 : ℕ) : ℤ))) = [] := by
      apply List.filter_eq_nil_iff.mpr
      intro a ha
      simp only [Bool.and_eq_true, decide_eq_true_eq, not_and]
      intro h1
      omega
    rw [hnil]
  | succ m ih =>
    have hstep : serpentine recs names (m + 1) =
        serpentine recs names m ++ serpPassPairs recs names ((m : ℤ) + 1) := by
      simp only [serpentine, List.range_succ, List.map_append, List.flatten_append,
        List.map_cons, List.map_nil, List.flatten_cons, List.flatten_nil,
        List.append_nil]
    rw [hstep]
    have hpass := serpPass_perm_filter recs names ((m : ℤ) + 1) h
    have happ := ih.append hpass
    refine happ.trans ?_
    have hdisj : ∀ a ∈ recs.zip names,
        ¬((decide (1 ≤ a.1.rng) && decide (a.1.rng ≤ (m : ℤ))) = true ∧
          (a.1.rng == (m : ℤ) + 1) = true) := by
      intro a ha
      simp only [Bool.and_eq_true, decide_eq_true_eq, beq_iff_eq, not_and]
      rintro ⟨h1, h2⟩ h3
      omega
    have hsplit := filter_or_perm
      (fun pr => decide (1 ≤ pr.1.rng) && decide (pr.1.rng ≤ (m : ℤ)))
      (fun pr => pr.1.rng == (m : ℤ) + 1) (recs.zip names) hdisj
    have hcong : (recs.zip names).filter
        (fun pr => (decide (1 ≤ pr.1.rng) && decide (pr.1.rng ≤ (m : ℤ))) ||
          (pr.1.rng == (m : ℤ) + 1)) =
        (recs.zip names).filter
          (fun pr => decide (1 ≤ pr.1.rng) && decide (pr.1.rng ≤ ((m + 1 : ℕ) : ℤ))) := by
      apply List.filter_congr
      intro pr hpr
      rw [Bool.eq_iff_iff]
      simp only [Bool.or_eq_true, Bool.and_eq_true, decide_eq_true_eq, beq_iff_eq]
      push_cast
      omega
    rw [← hcong]
    exact hsplit.symm

/-- C9: the serpentine stage emits exactly the records whose normalized
range index lies in `1..nRange`; when every normalized range is in that
interval the stage is a permutation of its input (nothing dropped or
duplicated), and when the `Range` values have gaps the out-of-interval
records are silently omitted: for input ranges `{1, 3}` (`nRange = 2`)
the pipeline succeeds and emits only the first record, with no error. -/
theorem serpentine_membership_spec :
    (∀ (recs : List SqRow) (names : List String) (n : ℕ),
      names.length = recs.length →
      (serpentine recs names n).Perm
        ((recs.zip names).filter
          (fun pr => decide (1 ≤ pr.1.rng) && decide (pr.1.rng ≤ (n : ℤ))))) ∧
    (∀ (recs : List SqRow) (names : List String) (n : ℕ),
      names.length = recs.length →
      (∀ r ∈ recs, 1 ≤ r.rng ∧ r.rng ≤ (n : ℤ)) →
      (serpentine recs names n).Perm (recs.zip names)) ∧
    ((uniqFirst (([⟨1, 1, 1, "a"⟩, ⟨2, 3, 1, "b"⟩] : List InRec).map (·.rng))).length
        = 2 ∧
      pipeline (Cfg.mk true true true true 1 false 0 none)
        [⟨1, 1, 1, "a"⟩, ⟨2, 3, 1, "b"⟩] = .ok [(⟨1, 1, 1, 1⟩, "a")]) := by
  refine ⟨serpentine_perm_filter, ?_, by decide, by rfl⟩
  intro recs names n h hall
  refine (serpentine_perm_filter recs names n h).trans ?_
  have : (recs.zip names).filter
      (fun pr => decide (1 ≤ pr.1.rng) && decide (pr.1.rng ≤ (n : ℤ))) =
      recs.zip names := by
    apply List.filter_eq_self.mpr
    intro a ha
    have hmem := (List.of_mem_zip ha).1
    have := hall a.1 hmem
    simp only [Bool.and_eq_true, decide_eq_true_eq]
    omega
  rw [this]

/-- Witness for C9 on a two-record grid with contiguous ranges. -/
theorem serpentine_membership_spec_witness :
    (["x", "y"].length = ([⟨1, 1, 1, 1⟩, ⟨2, 2, 1, 1⟩] : List SqRow).length) ∧
      (serpentine [⟨1, 1, 1, 1⟩, ⟨2, 2, 1, 1⟩] ["x", "y"] 2).Perm
        (([⟨1, 1, 1, 1⟩, ⟨2, 2, 1, 1⟩] : List SqRow).zip ["x", "y"]) := by
  refine ⟨by decide, ?_⟩
  exact serpentine_membership_spec.2.1 [⟨1, 1, 1, 1⟩, ⟨2, 2, 1, 1⟩] ["x", "y"] 2
    (by decide) (by decide)

/-- C5: each serpentine pass selects the records (with their labels) at
one range index, sorts them ascending by local row, and reverses the
sorted block exactly when the range index is even; the final emission is
the concatenation of these per-range blocks for ranges `1..nRange` in
increasing order. The reordering changes only the order of output
records and labels: every emitted pair is an input pair (so its corner
coordinates are untouched), and the labeled polygon multiset is
preserved. For `nRange = 3`, `nRow = 2` the emitted row order is
`[1,2], [2,1], [1,2]`. -/
theorem serpentine_order_spec :
    (∀ (recs : List SqRow) (names : List String) (i : ℤ),
      names.length = recs.length →
      ∃ l0, l0.Pairwise rowOrder ∧
        l0.Perm ((recs.zip names).filter (fun pr => pr.1.rng == i)) ∧
        serpPassPairs recs names i = (if i % 2 == 0 then l0.reverse else l0)) ∧
    (∀ (recs : List SqRow) (names : List String) (n : ℕ),
      serpentine recs names n =
        List.flatten ((List.range n).map
          fun j : ℕ => serpPassPairs recs names ((j : ℤ) + 1))) ∧
    (∀ (recs : List SqRow) (names : List String) (n : ℕ),
      names.length = recs.length →
      ∀ pr ∈ serpentine recs names n, pr ∈ recs.zip names) ∧
    (∀ (recs : List SqRow) (names : List String) (n : ℕ)
      (dE dN AE AN : ℝ) (stag : Option (ℤ × ℤ × ℝ)) (RS WS : ℝ),
      names.length = recs.length →
      ((serpentine recs names n).map
        (fun pr => (pr.2, recUnbufPoly dE dN AE AN stag RS WS pr.1))).Perm
        (((recs.zip names).filter
          (fun pr => decide (1 ≤ pr.1.rng) && decide (pr.1.rng ≤ (n : ℤ)))).map
          (fun pr => (pr.2, recUnbufPoly dE dN AE AN stag RS WS pr.1)))) ∧
    ((serpentine
        [⟨1, 1, 1, 1⟩, ⟨2, 1, 2, 2⟩, ⟨3, 2, 1, 1⟩, ⟨4, 2, 2, 2⟩,
          ⟨5, 3, 1, 1⟩, ⟨6, 3, 2, 2⟩]
        ["a", "b", "c", "d", "e", "f"] 3).map (fun pr => pr.1.row) =
        [1, 2, 2, 1, 1, 2] ∧
      (serpentine
        [⟨1, 1, 1, 1⟩, ⟨2, 1, 2, 2⟩, ⟨3, 2, 1, 1⟩, ⟨4, 2, 2, 2⟩,
          ⟨5, 3, 1, 1⟩, ⟨6, 3, 2, 2⟩]
        ["a", "b", "c", "d", "e", "f"] 3).map (fun pr => pr.1.rng) =
        [1, 1, 2, 2, 3, 3] ∧
      (serpentine
        [⟨1, 1, 1, 1⟩, ⟨2, 1, 2, 2⟩, ⟨3, 2, 1, 1⟩, ⟨4, 2, 2, 2⟩,
          ⟨5, 3, 1, 1⟩, ⟨6, 3, 2, 2⟩]
        ["a", "b", "c", "d", "e", "f"] 3).map Prod.snd =
        ["a", "b", "d", "c", "e", "f"]) := by
  refine ⟨?_, fun recs names n => rfl, ?_, ?_, by decide, by decide, by decide⟩
  · intro recs names i h
    refine ⟨sortLe (fun a b => a.1.row ≤ b.1.row)
      ((recs.zip names).filter (fun pr => pr.1.rng == i)),
      pairwise_sortLe_row _, perm_sortLe _ _, serpPassPairs_eq recs names i h⟩
  · intro recs names n h pr hpr
    have := (serpentine_perm_filter recs names n h).mem_iff.mp hpr
    exact List.mem_of_mem_filter this
  · intro recs names n dE dN AE AN stag RS WS h
    exact (serpentine_perm_filter recs names n h).map _

/-- Witness for C5 at the concrete 3x2 grid. -/
theorem serpentine_order_spec_witness :
    (["x", "y"].length = ([⟨1, 1, 1, 1⟩, ⟨2, 1, 2, 2⟩] : List SqRow).length) ∧
      ∃ l0, l0.Pairwise rowOrder ∧
        l0.Perm ((([⟨1, 1, 1, 1⟩, ⟨2, 1, 2, 2⟩] : List SqRow).zip
          ["x", "y"]).filter (fun pr => pr.1.rng == 1)) ∧
        serpPassPairs [⟨1, 1, 1, 1⟩, ⟨2, 1, 2, 2⟩] ["x", "y"] 1 =
          (if (1 : ℤ) % 2 == 0 then l0.reverse else l0) := by
  refine ⟨by decide, ?_⟩
  exact serpentine_order_spec.1 [⟨1, 1, 1, 1⟩, ⟨2, 1, 2, 2⟩] ["x", "y"] 1 (by decide)

/-! ### Label alignment (C10) -/

theorem mem_uniqFirstAux {α : Type} [DecidableEq α] :
    ∀ (fuel : ℕ) (l : List α) (b : α), b ∈ uniqFirstAux fuel l → b ∈ l := by
  intro fuel
  induction fuel with
  | zero => intro l b h; simp [uniqFirstAux] at h
  | succ m ih =>
    intro l b h
    cases l with
    | nil => simp [uniqFirstAux] at h
    | cons x xs =>
      simp only [uniqFirstAux] at h
      rcases List.mem_cons.mp h with h | h
      · exact h ▸ List.mem_cons_self x xs
      · exact List.mem_cons_of_mem x (List.mem_of_mem_filter (ih _ b h))

theorem count_filter_ne {α : Type} [DecidableEq α] (b x : α) (hbx : b ≠ x)
    (l : List α) : (l.filter (· != x)).count b = l.count b := by
  apply List.count_filter
  simpa using hbx

theorem length_filter_ne_add_count {α : Type} [DecidableEq α] (x : α)
    (l : List α) : (l.filter (· != x)).length + l.count x = l.length := by
  induction l with
  | nil => simp
  | cons y ys ih =>
    by_cases h : y = x
    · subst h
      simp only [List.filter_cons]
      rw [if_neg (by simp), List.count_cons_self]
      simp only [List.length_cons]
      omega
    · simp only [List.filter_cons]
      rw [if_pos (by simpa using h), List.count_cons,
        if_neg (by simpa using h)]
      simp only [List.length_cons]
      omega

theorem sum_count_uniqFirstAux {α : Type} [DecidableEq α] :
    ∀ (fuel : ℕ) (l : List α), l.length ≤ fuel →
      ((uniqFirstAux fuel l).map (fun b => l.count b)).sum = l.length := by
  intro fuel
  induction fuel with
  | zero =>
    intro l h
    have : l = [] := List.eq_nil_of_length_eq_zero (Nat.le_zero.mp h)
    subst this
    simp [uniqFirstAux]
  | succ m ih =>
    intro l hl
    cases l with
    | nil => simp [uniqFirstAux]
    | cons x xs =>
      simp only [uniqFirstAux, List.map_cons, List.sum_cons]
      have hflen : (xs.filter (· != x)).length ≤ m :=
        le_trans (List.length_filter_le _ _) (by simpa using hl)
      have ihf := ih (xs.filter (· != x)) hflen
      have hmap : (uniqFirstAux m (xs.filter (· != x))).map
            (fun b => (x :: xs).count b) =
          (uniqFirstAux m (xs.filter (· != x))).map
            (fun b => (xs.filter (· != x)).count b) := by
        apply List.map_congr_left
        intro b hb
        have hbmem := mem_uniqFirstAux m _ b hb
        have hbx : b ≠ x := by
          have := List.of_mem_filter hbmem
          simpa using this
        rw [List.count_cons, if_neg (by simpa using Ne.symm hbx),
          count_filter_ne b x hbx xs]
        omega
      rw [hmap, ihf, List.count_cons_self]
      have := length_filter_ne_add_count x xs
      simp only [List.length_cons]
      omega

theorem relabelNames_length (names : List String) :
    (relabelNames names).length = names.length := by
  simp only [relabelNames, List.length_flatten, List.map_map]
  have hmap : ((uniqFirst names).map (List.length ∘ fun b =>
      (List.range (names.count b)).map fun k => b ++ "_" ++ toString (k + 1))) =
      (uniqFirst names).map (fun b => names.count b) := by
    apply List.map_congr_left
    intro b hb
    simp
  rw [hmap]
  exact sum_count_uniqFirstAux names.length names (le_refl _)

/-- C10: labels remain aligned with records through every pipeline stage:
boolean-mask filtering removes records and labels at the same positions
and preserves equal lengths; the individual/subset relabeling produces
exactly one label per input record (so truncation to the record count is
the identity on lengths); the serpentine stage emits equally many records
and labels; and on success the final unbuffered and buffered artifact
sets have the same number of polygons carrying the identical label
sequence in identical order. -/
theorem label_alignment_spec :
    (∀ (α β : Type) (m : List Bool) (xs : List α) (ys : List β),
      xs.length = ys.length →
      (applyMask m xs).length = (applyMask m ys).length ∧
      applyMask m (xs.zip ys) = (applyMask m xs).zip (applyMask m ys)) ∧
    (∀ names : List String, (relabelNames names).length = names.length) ∧
    (∀ (names : List String) (k : ℕ), k ≤ names.length →
      ((relabelNames names).take k).length = k) ∧
    (∀ (recs : List SqRow) (names : List String) (n : ℕ),
      ((serpentine recs names n).map Prod.fst).length =
        ((serpentine recs names n).map Prod.snd).length) ∧
    (∀ (c : Cfg) (l : List InRec) (dE dN AE AN : ℝ)
      (stag : Option (ℤ × ℤ × ℝ)) (RS WS RB WB : ℝ)
      (res : List (SqRow × String)),
      pipeline c l = .ok res →
      ∃ u b, fullArtifacts c l dE dN AE AN stag RS WS RB WB = .ok (u, b) ∧
        u.length = res.length ∧ b.length = res.length ∧
        u.map Prod.fst = res.map Prod.snd ∧ b.map Prod.fst = res.map Prod.snd) := by
  refine ⟨?_, relabelNames_length, ?_, ?_, ?_⟩
  · intro α β m xs ys h
    exact ⟨applyMask_length_eq m xs ys h, applyMask_zip m xs ys h⟩
  · intro names k hk
    rw [List.length_take, relabelNames_length]
    omega
  · intro recs names n
    simp
  · intro c l dE dN AE AN stag RS WS RB WB res hok
    refine ⟨res.map fun pr => (pr.2, recUnbufPoly dE dN AE AN stag RS WS pr.1),
      res.map fun pr => (pr.2, recBufPoly dE dN AE AN stag RS WS RB WB pr.1),
      ?_, by simp, by simp, by simp [List.map_map], by simp [List.map_map]⟩
    rw [fullArtifacts, hok]
    rfl

/-- Witness for C10 on the concrete successful pipeline run. -/
theorem label_alignment_spec_witness :
    pipeline (Cfg.mk true true true true 1 false 0 none)
        [⟨1, 1, 1, "a"⟩, ⟨2, 3, 1, "b"⟩] = .ok [(⟨1, 1, 1, 1⟩, "a")] ∧
      ∃ u b : List (String × List (ℝ × ℝ)),
        fullArtifacts (Cfg.mk true true true true 1 false 0 none)
          [⟨1, 1, 1, "a"⟩, ⟨2, 3, 1, "b"⟩] 1 1 0 0 none 1 1 0 0 = .ok (u, b) ∧
        u.length = ([((⟨1, 1, 1, 1⟩ : SqRow), "a")] : List (SqRow × String)).length ∧
        b.length = ([((⟨1, 1, 1, 1⟩ : SqRow), "a")] : List (SqRow × String)).length ∧
        u.map Prod.fst = [((⟨1, 1, 1, 1⟩ : SqRow), "a")].map Prod.snd ∧
        b.map Prod.fst = [((⟨1, 1, 1, 1⟩ : SqRow), "a")].map Prod.snd := by
  refine ⟨by rfl, ?_⟩
  exact label_alignment_spec.2.2.2.2 (Cfg.mk true true true true 1 false 0 none)
    [⟨1, 1, 1, "a"⟩, ⟨2, 3, 1, "b"⟩] 1 1 0 0 none 1 1 0 0
    [(⟨1, 1, 1, 1⟩, "a")] (by rfl)

end UAStools
